import Mathlib

/-!
Verification of the pooling forward output-shape fragment and the training
topology container of the DAAL excerpt.

The pooling `Result`/`Input` member functions (`computeValueDimension`,
`computeValueDimensions`, `getValueSize`, `check`, `allocate`,
`createAuxInputDimensions`) are only declared in
`src/include/algorithms/neural_networks/layers/pooling3d/pooling3d_layer_forward_types.h`;
their bodies live outside the excerpt, so they are modelled from the
specification (spec.md §3, §4.1, §4.2, §7, §8).  The `Topology` class in
`src/include/algorithms/neural_networks/neural_networks_training_topology.h`
is fully inline and is embedded directly from that source.
-/

namespace DAAL

/-- The two error kinds of the scoped fragment (spec.md §7). -/
inductive ErrorKind where
  | invalidArgument
  | shapeMismatch
deriving DecidableEq, Repr

/-- Modelled from the spec: body of
`pooling3d::forward::Result::computeValueDimension` (declared at
pooling3d_layer_forward_types.h:141, body not in the excerpt).
Spec §4.1: inputs `dataDim` (positive), `kernelSize` (positive), `padding`
(non-negative), `stride` (positive); output
`floor((dataDim + 2*padding - kernelSize) / stride) + 1`, a positive
integer; fails with `InvalidArgument` if the computed value would be
non-positive (kernel larger than the padded input) or if any input violates
its stated constraint (over `Nat`, the constraint `padding ≥ 0` cannot be
violated). -/
def computeValueDimension (dataDim kernelSize padding stride : Nat) :
    Except ErrorKind Nat :=
  if dataDim < 1 ∨ kernelSize < 1 ∨ stride < 1 then .error .invalidArgument
  else if dataDim + 2 * padding < kernelSize then .error .invalidArgument
  else .ok ((dataDim + 2 * padding - kernelSize) / stride + 1)

/-- The floored value `(dataDim + 2*padding - kernelSize)/stride + 1` is
positive exactly when the kernel does not exceed the padded input. -/
lemma fdiv_succ_pos_iff (d k p s : Nat) (hs : 1 ≤ s) :
    0 < Int.fdiv ((d : Int) + 2 * p - k) s + 1 ↔ k ≤ d + 2 * p := by
  have hsZ : (0 : Int) < (s : Int) := by exact_mod_cast hs
  constructor
  · intro hpos
    by_contra hlt
    have hneg : ((d : Int) + 2 * p - k) < 0 := by omega
    have := Int.fdiv_neg' hneg hsZ
    omega
  · intro hle
    have hnn : (0 : Int) ≤ (d : Int) + 2 * p - k := by omega
    have := Int.fdiv_nonneg hnn (le_of_lt hsZ)
    omega

/-- C1 counterexample: `dataDim=4, kernelSize=5, padding=0, stride=1`
satisfies the stated positivity preconditions, yet the calculator fails with
`InvalidArgument` instead of returning the formula value, and the formula
value `floor((4+0-5)/1)+1 = 0` is not strictly positive. -/
theorem computeValueDimension_precondition_counterexample :
    (1 ≤ 4 ∧ 1 ≤ 5 ∧ 1 ≤ 1) ∧
    computeValueDimension 4 5 0 1 = .error .invalidArgument ∧
    Int.fdiv ((4 : Int) + 2 * 0 - 5) 1 + 1 = 0 := by
  refine ⟨by omega, rfl, by decide⟩

/-- C1 (amended): for all `dataDim ≥ 1`, `kernelSize ≥ 1`, `stride ≥ 1` and
`kernelSize ≤ dataDim + 2*padding` (so the computed value is positive), the
calculator returns exactly `floor((dataDim + 2*padding - kernelSize)/stride) + 1`,
and this value is strictly positive. -/
theorem computeValueDimension_formula (d k p s : Nat)
    (hd : 1 ≤ d) (hk : 1 ≤ k) (hs : 1 ≤ s) (hks : k ≤ d + 2 * p) :
    computeValueDimension d k p s = .ok ((d + 2 * p - k) / s + 1) ∧
    (((d + 2 * p - k) / s : Nat) : Int) + 1 = Int.fdiv ((d : Int) + 2 * p - k) s + 1 ∧
    0 < (d + 2 * p - k) / s + 1 := by
  refine ⟨?_, ?_, Nat.succ_pos _⟩
  · have h1 : ¬(d < 1 ∨ k < 1 ∨ s < 1) := by omega
    have h2 : ¬(d + 2 * p < k) := by omega
    rw [computeValueDimension, if_neg h1, if_neg h2]
  · have hcast : ((d + 2 * p - k : Nat) : Int) = (d : Int) + 2 * p - k := by omega
    rw [Int.ofNat_fdiv, hcast]

/-- Witness for `computeValueDimension_formula` at `(7, 3, 0, 2)`. -/
theorem computeValueDimension_formula_witness :
    computeValueDimension 7 3 0 2 = .ok ((7 + 2 * 0 - 3) / 2 + 1) ∧
    (((7 + 2 * 0 - 3) / 2 : Nat) : Int) + 1 = Int.fdiv ((7 : Int) + 2 * 0 - 3) 2 + 1 ∧
    0 < (7 + 2 * 0 - 3) / 2 + 1 :=
  computeValueDimension_formula 7 3 0 2 (by omega) (by omega) (by omega) (by omega)

/-- C2: the calculator fails with `InvalidArgument` exactly when the value
`floor((dataDim + 2*padding - kernelSize)/stride) + 1` would be non-positive
or an input violates its stated constraint (`dataDim ≥ 1`, `kernelSize ≥ 1`,
`stride ≥ 1`; `padding ≥ 0` holds trivially over `Nat`); in particular
`dataDim=4, kernelSize=5, padding=0, stride=1` fails with `InvalidArgument`. -/
theorem computeValueDimension_invalidArgument_iff :
    (∀ d k p s : Nat,
      computeValueDimension d k p s = .error .invalidArgument ↔
        (Int.fdiv ((d : Int) + 2 * p - k) s + 1 ≤ 0 ∨ d < 1 ∨ k < 1 ∨ s < 1)) ∧
    computeValueDimension 4 5 0 1 = .error .invalidArgument := by
  refine ⟨?_, rfl⟩
  intro d k p s
  by_cases h1 : d < 1 ∨ k < 1 ∨ s < 1
  · rw [computeValueDimension, if_pos h1]
    exact iff_of_true rfl (by tauto)
  · have hs : 1 ≤ s := by omega
    by_cases h2 : d + 2 * p < k
    · rw [computeValueDimension, if_neg h1, if_pos h2]
      refine iff_of_true rfl (Or.inl ?_)
      have := (not_iff_not.mpr (fdiv_succ_pos_iff d k p s hs)).mpr (by omega)
      omega
    · rw [computeValueDimension, if_neg h1, if_neg h2]
      refine iff_of_false (by simp) ?_
      push_neg
      refine ⟨?_, by omega, by omega, by omega⟩
      have := (fdiv_succ_pos_iff d k p s hs).mpr (by omega)
      omega

/-- C5: the calculator returns `3` on `(dataDim=7, kernelSize=3, padding=0,
stride=2)` and `1` on `(dataDim=5, kernelSize=5, padding=0, stride=1)`. -/
theorem computeValueDimension_examples :
    computeValueDimension 7 3 0 2 = .ok 3 ∧
    computeValueDimension 5 5 0 1 = .ok 1 :=
  ⟨rfl, rfl⟩

/-- Modelled from the spec: the per-dimension loop of
`Result::computeValueDimensions` (declared at
pooling3d_layer_forward_types.h:143, body not in the excerpt).  Spec §4.1:
the per-dimension calculator "is applied independently per pooling spatial
dimension to build the full output tensor shape, preserving all non-pooled
dimensions unchanged and in their original order".  Each list element
`(idx, kernelSize, padding, stride)` overwrites entry `idx` of the
dimensions list with the calculator's result; the first error encountered is
propagated. -/
def applyPooling : List Nat → List (Nat × Nat × Nat × Nat) → Except ErrorKind (List Nat)
  | dims, [] => .ok dims
  | dims, (idx, k, p, s) :: rest =>
    match computeValueDimension (dims.getD idx 0) k p s with
    | .error e => .error e
    | .ok v => applyPooling (dims.set idx v) rest

/-- Modelled from the spec: `Result::computeValueDimensions`
(pooling3d_layer_forward_types.h:143).  `indices` lists the pooled spatial
dimensions of the shape and `triples` the `(kernelSize, padding, stride)`
parameter triples, one per pooled spatial dimension (spec §3). -/
def computeValueDimensions (dims : List Nat) (indices : List Nat)
    (triples : List (Nat × Nat × Nat)) : Except ErrorKind (List Nat) :=
  applyPooling dims (indices.zip triples)

/-- Modelled from the spec: `Result::getValueSize`
(pooling3d_layer_forward_types.h:120-121) returns the dimensions of the
value tensor, computed from the input size by `computeValueDimensions`. -/
def getValueSize (inputSize : List Nat) (indices : List Nat)
    (triples : List (Nat × Nat × Nat)) : Except ErrorKind (List Nat) :=
  computeValueDimensions inputSize indices triples

/-- Modelled from the spec: the validation of `Input::check`
(pooling3d_layer_forward_types.h:100) and `Result::check` (line 138).
Spec §4.2: the parameter-triples count must match the number of pooled
dimensions in the input shape, failing with a `ShapeMismatch` kind
otherwise, and all per-dimension constraints of §4.1 must hold. -/
def check (dims : List Nat) (indices : List Nat)
    (triples : List (Nat × Nat × Nat)) : Except ErrorKind Unit :=
  if indices.length ≠ triples.length then .error .shapeMismatch
  else
    match applyPooling dims (indices.zip triples) with
    | .error e => .error e
    | .ok _ => .ok ()

lemma getD_set_self {α : Type} (l : List α) (i : Nat) (v d : α) (h : i < l.length) :
    (l.set i v).getD i d = v := by
  simp [List.getD_eq_getElem?_getD, List.getElem?_set_self h]

lemma getD_set_ne {α : Type} (l : List α) (i j : Nat) (v d : α) (h : i ≠ j) :
    (l.set i v).getD j d = l.getD j d := by
  simp [List.getD_eq_getElem?_getD, List.getElem?_set_ne h]

lemma getD_append_lt {α : Type} (l l2 : List α) (i : Nat) (d : α) (h : i < l.length) :
    (l ++ l2).getD i d = l.getD i d := by
  simp [List.getD_eq_getElem?_getD, List.getElem?_append_left h]

lemma getD_concat_length {α : Type} (l : List α) (a d : α) :
    (l ++ [a]).getD l.length d = a := by
  simp [List.getD_eq_getElem?_getD, List.getElem?_concat_length]

lemma getD_append_right_add {α : Type} (l l2 : List α) (j : Nat) (d : α) :
    (l ++ l2).getD (l.length + j) d = l2.getD j d := by
  simp [List.getD_eq_getElem?_getD,
    List.getElem?_append_right (Nat.le_add_right l.length j)]

/-- Pointwise description of a successful `applyPooling` run: the length is
preserved, every pooled entry holds the calculator's result for the original
entry, and every other entry is unchanged. -/
lemma applyPooling_spec (ps : List (Nat × Nat × Nat × Nat)) :
    ∀ (dims out : List Nat), (ps.map Prod.fst).Nodup →
    (∀ q ∈ ps, q.1 < dims.length) →
    applyPooling dims ps = .ok out →
    out.length = dims.length ∧
    (∀ q ∈ ps,
      computeValueDimension (dims.getD q.1 0) q.2.1 q.2.2.1 q.2.2.2 =
        .ok (out.getD q.1 0)) ∧
    (∀ j, j ∉ ps.map Prod.fst → out.getD j 0 = dims.getD j 0) := by
  induction ps with
  | nil =>
    intro dims out _ _ hok
    simp only [applyPooling] at hok
    cases hok
    simp
  | cons q rest ih =>
    obtain ⟨idx, k, p, s⟩ := q
    intro dims out hnd hb hok
    simp only [List.map_cons, List.nodup_cons] at hnd
    obtain ⟨hidx, hnd'⟩ := hnd
    have hlt : idx < dims.length := hb _ (List.mem_cons_self _ _)
    cases hc : computeValueDimension (dims.getD idx 0) k p s with
    | error e =>
      simp only [applyPooling, hc] at hok
      exact Except.noConfusion hok
    | ok v =>
      simp only [applyPooling, hc] at hok
      have hb' : ∀ q ∈ rest, q.1 < (dims.set idx v).length := by
        intro q hq
        rw [List.length_set]
        exact hb q (List.mem_cons_of_mem _ hq)
      obtain ⟨hlen, hmem, hrest⟩ := ih (dims.set idx v) out hnd' hb' hok
      refine ⟨by rw [hlen, List.length_set], ?_, ?_⟩
      · intro q hq
        rcases List.mem_cons.mp hq with hq | hq
        · subst hq
          have : out.getD idx 0 = v := by
            rw [hrest idx hidx, getD_set_self dims idx v 0 hlt]
          rw [this]
          exact hc
        · have hne : idx ≠ q.1 := fun he => hidx (he ▸ List.mem_map_of_mem Prod.fst hq)
          have := hmem q hq
          rwa [getD_set_ne dims idx q.1 v 0 hne] at this
      · intro j hj
        simp only [List.map_cons, List.mem_cons] at hj
        push_neg at hj
        rw [hrest j hj.2, getD_set_ne dims idx j v 0 (fun he => hj.1 he.symm)]

/-- A successful run exists as soon as the calculator succeeds on every
pooled entry of the original shape. -/
lemma applyPooling_ok_of (ps : List (Nat × Nat × Nat × Nat)) :
    ∀ dims : List Nat, (ps.map Prod.fst).Nodup →
    (∀ q ∈ ps, q.1 < dims.length) →
    (∀ q ∈ ps, ∃ v,
      computeValueDimension (dims.getD q.1 0) q.2.1 q.2.2.1 q.2.2.2 = .ok v) →
    ∃ out, applyPooling dims ps = .ok out := by
  induction ps with
  | nil =>
    intro dims _ _ _
    exact ⟨dims, rfl⟩
  | cons q rest ih =>
    obtain ⟨idx, k, p, s⟩ := q
    intro dims hnd hb hcalc
    simp only [List.map_cons, List.nodup_cons] at hnd
    obtain ⟨hidx, hnd'⟩ := hnd
    obtain ⟨v, hv⟩ := hcalc _ (List.mem_cons_self _ _)
    have hb' : ∀ q ∈ rest, q.1 < (dims.set idx v).length := by
      intro q hq
      rw [List.length_set]
      exact hb q (List.mem_cons_of_mem _ hq)
    have hcalc' : ∀ q ∈ rest, ∃ w,
        computeValueDimension ((dims.set idx v).getD q.1 0) q.2.1 q.2.2.1 q.2.2.2 = .ok w := by
      intro q hq
      have hne : idx ≠ q.1 := fun he => hidx (he ▸ List.mem_map_of_mem Prod.fst hq)
      rw [getD_set_ne dims idx q.1 v 0 hne]
      exact hcalc q (List.mem_cons_of_mem _ hq)
    obtain ⟨out, hout⟩ := ih (dims.set idx v) hnd' hb' hcalc'
    exact ⟨out, by simp only [applyPooling, hv]; exact hout⟩

/-- C3: for every valid input tensor shape and pooling parameter set, the
full output tensor shape produced by `getValueSize` / `computeValueDimensions`
equals the input shape with each pooled spatial dimension independently
replaced by the per-dimension calculator's result, while every non-pooled
dimension is unchanged and all dimensions keep their original order
(every entry stays at its original position). -/
theorem getValueSize_spec (dims indices : List Nat)
    (triples : List (Nat × Nat × Nat)) (out : List Nat)
    (hlen : indices.length = triples.length)
    (hnd : indices.Nodup)
    (hb : ∀ i ∈ indices, i < dims.length)
    (hok : getValueSize dims indices triples = .ok out) :
    out.length = dims.length ∧
    (∀ q ∈ indices.zip triples,
      computeValueDimension (dims.getD q.1 0) q.2.1 q.2.2.1 q.2.2.2 =
        .ok (out.getD q.1 0)) ∧
    (∀ j, j ∉ indices → out.getD j 0 = dims.getD j 0) := by
  have hmap : (indices.zip triples).map Prod.fst = indices :=
    List.map_fst_zip indices triples (le_of_eq hlen)
  have hb' : ∀ q ∈ indices.zip triples, q.1 < dims.length := by
    intro q hq
    obtain ⟨i, t⟩ := q
    exact hb i (List.of_mem_zip hq).1
  have h := applyPooling_spec (indices.zip triples) dims out (by rwa [hmap])
    hb' hok
  exact ⟨h.1, h.2.1, fun j hj => h.2.2 j (by rwa [hmap])⟩

/-- Witness for `getValueSize_spec` on the shape `[2, 6, 6]` with pooled
dimensions `1, 2` and triples `(3,0,2)` and `(5,0,1)`. -/
theorem getValueSize_spec_witness :
    ([2, 2, 2] : List Nat).length = ([2, 6, 6] : List Nat).length ∧
    (∀ q ∈ ([1, 2] : List Nat).zip [((3 : Nat), (0 : Nat), (2 : Nat)), (5, 0, 1)],
      computeValueDimension (([2, 6, 6] : List Nat).getD q.1 0) q.2.1 q.2.2.1 q.2.2.2 =
        .ok (([2, 2, 2] : List Nat).getD q.1 0)) ∧
    (∀ j, j ∉ ([1, 2] : List Nat) →
      ([2, 2, 2] : List Nat).getD j 0 = ([2, 6, 6] : List Nat).getD j 0) :=
  getValueSize_spec [2, 6, 6] [1, 2] [(3, 0, 2), (5, 0, 1)] [2, 2, 2]
    rfl (by decide) (by decide) rfl

/-- C4: for pooled dimensions that are distinct in-range positions of the
shape, the validation check succeeds exactly when the number of parameter
triples matches the number of pooled dimensions and the per-dimension
calculator accepts every pooled dimension; when the cardinalities disagree
it fails with a `ShapeMismatch` error kind. -/
theorem check_spec (dims indices : List Nat) (triples : List (Nat × Nat × Nat))
    (hnd : indices.Nodup) (hb : ∀ i ∈ indices, i < dims.length) :
    (check dims indices triples = .ok () ↔
      (indices.length = triples.length ∧
        ∀ q ∈ indices.zip triples, ∃ v,
          computeValueDimension (dims.getD q.1 0) q.2.1 q.2.2.1 q.2.2.2 = .ok v)) ∧
    (indices.length ≠ triples.length →
      check dims indices triples = .error .shapeMismatch) := by
  constructor
  · by_cases hl : indices.length = triples.length
    · have hmap : (indices.zip triples).map Prod.fst = indices :=
        List.map_fst_zip indices triples (le_of_eq hl)
      have hb' : ∀ q ∈ indices.zip triples, q.1 < dims.length := by
        intro q hq
        obtain ⟨i, t⟩ := q
        exact hb i (List.of_mem_zip hq).1
      cases happ : applyPooling dims (indices.zip triples) with
      | error e =>
        refine iff_of_false ?_ ?_
        · rw [check, if_neg (by omega), happ]
          simp
        · rintro ⟨-, hall⟩
          obtain ⟨out, hout⟩ :=
            applyPooling_ok_of (indices.zip triples) dims (by rwa [hmap]) hb' hall
          rw [happ] at hout
          exact Except.noConfusion hout
      | ok out =>
        refine iff_of_true ?_ ?_
        · rw [check, if_neg (by omega), happ]
        · refine ⟨hl, fun q hq => ?_⟩
          exact ⟨out.getD q.1 0,
            (applyPooling_spec (indices.zip triples) dims out (by rwa [hmap])
              hb' happ).2.1 q hq⟩
    · refine iff_of_false ?_ (fun h => hl h.1)
      rw [check, if_pos hl]
      simp
  · intro hne
    rw [check, if_pos hne]

/-- Witness for `check_spec` on the shape `[2, 6, 6]` with pooled
dimensions `1, 2` and triples `(3,0,2)` and `(5,0,1)`. -/
theorem check_spec_witness :
    (check [2, 6, 6] [1, 2] [(3, 0, 2), (5, 0, 1)] = .ok () ↔
      (([1, 2] : List Nat).length = ([((3 : Nat), (0 : Nat), (2 : Nat)), (5, 0, 1)] : List (Nat × Nat × Nat)).length ∧
        ∀ q ∈ ([1, 2] : List Nat).zip [((3 : Nat), (0 : Nat), (2 : Nat)), (5, 0, 1)], ∃ v,
          computeValueDimension (([2, 6, 6] : List Nat).getD q.1 0) q.2.1 q.2.2.1 q.2.2.2 = .ok v)) ∧
    (([1, 2] : List Nat).length ≠ ([((3 : Nat), (0 : Nat), (2 : Nat)), (5, 0, 1)] : List (Nat × Nat × Nat)).length →
      check [2, 6, 6] [1, 2] [(3, 0, 2), (5, 0, 1)] = .error .shapeMismatch) :=
  check_spec [2, 6, 6] [1, 2] [(3, 0, 2), (5, 0, 1)] (by decide) (by decide)

/-- C6: the full output-shape computation is a pure deterministic function
of the input shape and parameter set: two invocations with equal inputs
produce equal full output shapes, and the non-pooled dimensions are left
untouched. -/
theorem computeValueDimensions_deterministic :
    (∀ (dims1 dims2 indices1 indices2 : List Nat)
       (triples1 triples2 : List (Nat × Nat × Nat)),
      dims1 = dims2 → indices1 = indices2 → triples1 = triples2 →
      computeValueDimensions dims1 indices1 triples1 =
        computeValueDimensions dims2 indices2 triples2) ∧
    (∀ (dims indices : List Nat) (triples : List (Nat × Nat × Nat))
       (out : List Nat),
      indices.length = triples.length → indices.Nodup →
      (∀ i ∈ indices, i < dims.length) →
      computeValueDimensions dims indices triples = .ok out →
      ∀ j, j ∉ indices → out.getD j 0 = dims.getD j 0) := by
  constructor
  · intro dims1 dims2 indices1 indices2 triples1 triples2 h1 h2 h3
    rw [h1, h2, h3]
  · intro dims indices triples out hlen hnd hb hok j hj
    have hmap : (indices.zip triples).map Prod.fst = indices :=
      List.map_fst_zip indices triples (le_of_eq hlen)
    have hb' : ∀ q ∈ indices.zip triples, q.1 < dims.length := by
      intro q hq
      obtain ⟨i, t⟩ := q
      exact hb i (List.of_mem_zip hq).1
    exact (applyPooling_spec (indices.zip triples) dims out (by rwa [hmap])
      hb' hok).2.2 j (by rwa [hmap])

/-- Witness for `computeValueDimensions_deterministic` on the shape `[2, 6]`
with pooled dimension `1` and triple `(3,0,2)`. -/
theorem computeValueDimensions_deterministic_witness :
    computeValueDimensions [2, 6] [1] [(3, 0, 2)] =
      computeValueDimensions [2, 6] [1] [(3, 0, 2)] ∧
    ([2, 2] : List Nat).getD 0 0 = ([2, 6] : List Nat).getD 0 0 :=
  ⟨computeValueDimensions_deterministic.1 [2, 6] [2, 6] [1] [1]
      [(3, 0, 2)] [(3, 0, 2)] rfl rfl rfl,
    computeValueDimensions_deterministic.2 [2, 6] [1] [(3, 0, 2)] [2, 2]
      rfl (by decide) (by decide) rfl 0 (by decide)⟩

/-- Input object (spec §3): references an input tensor shape and owns no
data. -/
structure Input where
  dims : List Nat
deriving DecidableEq, Repr

/-- Result object (spec §3): owns the output tensor shape and, for
training-mode variants, the auxiliary input-dimensions record. -/
structure Result where
  valueDims : List Nat
  auxInputDimensions : Option (List Nat)
deriving DecidableEq, Repr

/-- Modelled from the spec: `Result::createAuxInputDimensions`
(pooling3d_layer_forward_types.h:145, body not in the excerpt).  Spec §4.2:
the auxiliary tensor records the input dimensions for use by the
corresponding backward pass. -/
def createAuxInputDimensions (dataDims : List Nat) : List Nat := dataDims

/-- Modelled from the spec: `Result::allocate`
(pooling3d_layer_forward_types.h:129-130, body not in the excerpt).
Spec §4.2: on success allocates a tensor whose shape equals the input shape
with pooled dimensions replaced per §4.1 and, for training-mode variants,
an auxiliary tensor recording the input dimensions; side effects: none
beyond buffer allocation, no mutation of the input object.  The state is
passed explicitly: the input object as left by the call is returned
alongside the allocated result. -/
def allocate (input : Input) (indices : List Nat)
    (triples : List (Nat × Nat × Nat)) (training : Bool) :
    Except ErrorKind (Result × Input) :=
  match computeValueDimensions input.dims indices triples with
  | .error e => .error e
  | .ok outDims =>
    .ok ({ valueDims := outDims,
           auxInputDimensions :=
             if training then some (createAuxInputDimensions input.dims) else none },
         input)

/-- C7: a successful `Result::allocate` has no side effect beyond allocating
the output buffer: the input object coming out of the explicit state passing
is exactly the original input object (and the checks, being pure functions
of the input, cannot change it either). -/
theorem allocate_no_mutation (input : Input) (indices : List Nat)
    (triples : List (Nat × Nat × Nat)) (training : Bool)
    (r : Result) (input2 : Input)
    (hok : allocate input indices triples training = .ok (r, input2)) :
    input2 = input := by
  cases h : computeValueDimensions input.dims indices triples with
  | error e =>
    simp only [allocate, h] at hok
    exact Except.noConfusion hok
  | ok outDims =>
    simp only [allocate, h, Except.ok.injEq, Prod.mk.injEq] at hok
    exact hok.2.symm

/-- Witness for `allocate_no_mutation` on the input shape `[2, 6]` with
pooled dimension `1` and triple `(3,0,2)`. -/
theorem allocate_no_mutation_witness : (⟨[2, 6]⟩ : Input) = ⟨[2, 6]⟩ :=
  allocate_no_mutation ⟨[2, 6]⟩ [1] [(3, 0, 2)] false ⟨[2, 2], none⟩ ⟨[2, 6]⟩ rfl

/-- C8: a successful training-mode allocation additionally materializes the
auxiliary record produced by `createAuxInputDimensions`, whose contents are
exactly the input tensor's dimensions, alongside the value tensor whose
shape is the computed output shape. -/
theorem allocate_training_spec (input : Input) (indices : List Nat)
    (triples : List (Nat × Nat × Nat)) (r : Result) (input2 : Input)
    (hok : allocate input indices triples true = .ok (r, input2)) :
    r.auxInputDimensions = some (createAuxInputDimensions input.dims) ∧
    createAuxInputDimensions input.dims = input.dims ∧
    computeValueDimensions input.dims indices triples = .ok r.valueDims := by
  cases h : computeValueDimensions input.dims indices triples with
  | error e =>
    simp only [allocate, h] at hok
    exact Except.noConfusion hok
  | ok outDims =>
    simp only [allocate, h, Except.ok.injEq, Prod.mk.injEq] at hok
    obtain ⟨hr, -⟩ := hok
    subst hr
    exact ⟨rfl, rfl, rfl⟩

/-- Witness for `allocate_training_spec` on the input shape `[2, 6]` with
pooled dimension `1` and triple `(3,0,2)`. -/
theorem allocate_training_spec_witness :
    (Result.mk [2, 2] (some [2, 6])).auxInputDimensions =
      some (createAuxInputDimensions [2, 6]) ∧
    createAuxInputDimensions [2, 6] = [2, 6] ∧
    computeValueDimensions [2, 6] [1] [(3, 0, 2)] =
      .ok (Result.mk [2, 2] (some [2, 6])).valueDims :=
  allocate_training_spec ⟨[2, 6]⟩ [1] [(3, 0, 2)] ⟨[2, 2], some [2, 6]⟩ ⟨[2, 6]⟩ rfl

/-!
Embedding of `Topology`
(`src/include/algorithms/neural_networks/neural_networks_training_topology.h`).
The class is fully inline in the header.  The layer payload
(`layers::LayerIfacePtr`, a shared pointer) is opaque to every `Topology`
operation and is modelled as a `Nat` handle; `layers::LayerDescriptor` is
modelled by its observable fields `id`, `layer` and `nextLayers` (the
two-argument constructor `LayerDescriptor(id, layer)` leaves `nextLayers`
empty, `addNext` appends one index).
-/

/-- `layers::LayerDescriptor` as used by `Topology`. -/
structure LayerDescriptor where
  id : Nat
  layer : Nat
  nextLayers : List Nat
deriving DecidableEq, Repr

instance : Inhabited LayerDescriptor := ⟨⟨0, 0, []⟩⟩

/-- `LayerDescriptor::addNext`: appends an index to the next-layer list. -/
def LayerDescriptor.addNext (d : LayerDescriptor) (n : Nat) : LayerDescriptor :=
  { d with nextLayers := d.nextLayers ++ [n] }

/-- `Topology` (neural_networks_training_topology.h:43-183): a collection
`_config` of layer descriptors. -/
structure Topology where
  config : List LayerDescriptor
deriving DecidableEq, Repr

/-- `Topology::size` (line 70). -/
def Topology.size (t : Topology) : Nat := t.config.length

/-- `Topology::push_back` (lines 78-83): appends a descriptor carrying the
next available id (the current size) and returns that id. -/
def Topology.push_back (t : Topology) (layer : Nat) : Topology × Nat :=
  ({ config := t.config ++ [⟨t.config.length, layer, []⟩] }, t.config.length)

/-- `Topology::add(const LayerIfacePtr &)` (lines 91-94): forwards to
`push_back`. -/
def Topology.addLayer (t : Topology) (layer : Nat) : Topology × Nat :=
  t.push_back layer

/-- `Topology::get` / const `operator[]` (lines 148, 156, 164): element
access; out-of-range access is undefined behaviour in the source and is
totalized here with the default descriptor. -/
def Topology.get (t : Topology) (index : Nat) : LayerDescriptor :=
  t.config.getD index default

/-- The in-place mutation `get(index).addNext(next)` used by
`Topology::add` (line 116) and `Topology::addNext` (lines 175-179):
appends `next` to the descriptor stored at `index`. -/
def Topology.addNextAt (t : Topology) (index next : Nat) : Topology :=
  { config := t.config.set index ((t.config.getD index default).addNext next) }

/-- `Topology::clear` (lines 128-132): removes all layer descriptors. -/
def Topology.clear (_t : Topology) : Topology := { config := [] }

/-- Copy constructor `Topology(const Topology &)` (lines 57-63): rebuilds
every descriptor as `LayerDescriptor(i, t[i].layer(), t[i].nextLayers())`. -/
def Topology.copy (t : Topology) : Topology :=
  { config := (List.range t.size).map fun i =>
      ⟨i, (t.get i).layer, (t.get i).nextLayers⟩ }

/-- The loop of `Topology::add(const Topology &, size_t &)`
(lines 108-118): `size` is the size captured before the loop, `i` the loop
counter, the last argument the running value of `id`.  Each iteration
pushes the block descriptor's layer and then appends its next-layer
indices, each shifted by `size`, to the descriptor at `i + size`. -/
def Topology.addLoop (size : Nat) :
    Topology → List LayerDescriptor → Nat → Nat → Topology × Nat
  | t, [], _, id => (t, id)
  | t, d :: rest, i, _ =>
    let pb := t.push_back d.layer
    let t1 := d.nextLayers.foldl (fun acc n => acc.addNextAt (i + size) (n + size)) pb.1
    addLoop size t1 rest (i + 1) pb.2

/-- `Topology::add(const Topology &, size_t &)` (lines 103-120): appends a
block of layers.  Returns the new topology, the returned index of the last
appended element, and the value written to the by-reference `startIndex`
(the size before the call). -/
def Topology.addBlock (t b : Topology) : Topology × Nat × Nat :=
  let size := t.size
  let r := Topology.addLoop size t b.config 0 0
  (r.1, r.2, size)

/-- Topologies reachable from the default constructor (line 50) by any
sequence of `push_back`, both `add` overloads, `clear` and copy
construction. -/
inductive Reachable : Topology → Prop where
  | empty : Reachable ⟨[]⟩
  | push_step (t : Topology) (l : Nat) : Reachable t → Reachable (t.push_back l).1
  | addLayer_step (t : Topology) (l : Nat) : Reachable t → Reachable (t.addLayer l).1
  | addBlock_step (t b : Topology) : Reachable t → Reachable (t.addBlock b).1
  | clear_step (t : Topology) : Reachable t → Reachable t.clear
  | copy_step (t : Topology) : Reachable t → Reachable t.copy

/-- The id invariant: the descriptor stored at index `i` has id `i`. -/
def IdInvariant (t : Topology) : Prop :=
  ∀ i, i < t.size → (t.config.getD i default).id = i

lemma idInvariant_push (t : Topology) (l : Nat) (h : IdInvariant t) :
    IdInvariant (t.push_back l).1 := by
  intro i hi
  simp only [Topology.push_back, Topology.size, List.length_append,
    List.length_cons, List.length_nil] at hi ⊢
  rcases Nat.lt_or_ge i t.config.length with hlt | hge
  · rw [getD_append_lt _ _ _ _ hlt]
    exact h i hlt
  · have hieq : i = t.config.length := by omega
    subst hieq
    rw [getD_concat_length]

lemma idInvariant_addNextAt (t : Topology) (index next : Nat)
    (h : IdInvariant t) : IdInvariant (t.addNextAt index next) := by
  intro i hi
  simp only [Topology.addNextAt, Topology.size, List.length_set] at hi ⊢
  by_cases hie : index = i
  · subst hie
    rw [getD_set_self _ _ _ _ hi]
    exact h index hi
  · rw [getD_set_ne _ _ _ _ _ hie]
    exact h i hi

lemma idInvariant_foldl_addNextAt (ns : List Nat) (index shift : Nat) :
    ∀ t : Topology, IdInvariant t →
    IdInvariant (ns.foldl (fun acc n => acc.addNextAt index (n + shift)) t) := by
  induction ns with
  | nil => exact fun t h => h
  | cons n rest ih =>
    intro t h
    exact ih _ (idInvariant_addNextAt _ _ _ h)

lemma idInvariant_addLoop (size : Nat) (bl : List LayerDescriptor) :
    ∀ (t : Topology) (i id0 : Nat), IdInvariant t →
    IdInvariant (Topology.addLoop size t bl i id0).1 := by
  induction bl with
  | nil => exact fun t i id0 h => h
  | cons d rest ih =>
    intro t i id0 h
    simp only [Topology.addLoop]
    exact ih _ _ _ (idInvariant_foldl_addNextAt _ _ _ _ (idInvariant_push _ _ h))

lemma idInvariant_copy (t : Topology) : IdInvariant t.copy := by
  intro i hi
  simp only [Topology.copy, Topology.size, List.length_map, List.length_range] at hi ⊢
  rw [List.getD_eq_getElem?_getD, List.getElem?_map, List.getElem?_range hi]
  rfl

lemma idInvariant_of_reachable (t : Topology) (h : Reachable t) :
    IdInvariant t := by
  induction h with
  | empty =>
    intro i hi
    simp [Topology.size] at hi
  | push_step t l _ ih => exact idInvariant_push t l ih
  | addLayer_step t l _ ih => exact idInvariant_push t l ih
  | addBlock_step t b _ ih => exact idInvariant_addLoop t.size b.config t 0 0 ih
  | clear_step t _ _ =>
    intro i hi
    simp [Topology.clear, Topology.size] at hi
  | copy_step t _ _ => exact idInvariant_copy t

/-- C9: for every `Topology` reachable from the default constructor by
`push_back`, `add` (either overload), `clear` and copy construction, the
descriptor stored at index `i` has id `i`; and `push_back` returns the
topology's size before the call while growing the size by exactly one. -/
theorem topology_id_invariant :
    (∀ t : Topology, Reachable t →
      ∀ i, i < t.size → (t.config.getD i default).id = i) ∧
    (∀ (t : Topology) (l : Nat),
      (t.push_back l).2 = t.size ∧ (t.push_back l).1.size = t.size + 1) := by
  constructor
  · exact fun t h => idInvariant_of_reachable t h
  · intro t l
    refine ⟨rfl, ?_⟩
    simp [Topology.push_back, Topology.size]

/-- Witness for `topology_id_invariant`: the singleton topology obtained by
one `push_back` from the default constructor. -/
theorem topology_id_invariant_witness :
    ((((⟨[]⟩ : Topology).push_back 7).1.config.getD 0 default).id = 0) ∧
    ((⟨[]⟩ : Topology).push_back 7).2 = (⟨[]⟩ : Topology).size ∧
    ((⟨[]⟩ : Topology).push_back 7).1.size = (⟨[]⟩ : Topology).size + 1 :=
  ⟨topology_id_invariant.1 _ (Reachable.push_step ⟨[]⟩ 7 Reachable.empty) 0
      (by decide),
    topology_id_invariant.2 ⟨[]⟩ 7⟩

lemma foldl_addNextAt_concat (ns : List Nat) (shift : Nat) :
    ∀ (m : Nat) (cfg : List LayerDescriptor) (d : LayerDescriptor),
    m = cfg.length →
    ns.foldl (fun acc n => Topology.addNextAt acc m (n + shift)) ⟨cfg ++ [d]⟩ =
      ⟨cfg ++ [{ d with nextLayers := d.nextLayers ++ ns.map (fun n => n + shift) }]⟩ := by
  induction ns with
  | nil =>
    intro m cfg d _
    simp
  | cons n rest ih =>
    intro m cfg d hm
    subst hm
    simp only [List.foldl_cons]
    have hstep : Topology.addNextAt ⟨cfg ++ [d]⟩ cfg.length (n + shift) =
        ⟨cfg ++ [d.addNext (n + shift)]⟩ := by
      simp only [Topology.addNextAt]
      rw [getD_concat_length, List.set_append_right _ _ (le_refl cfg.length)]
      simp
    rw [hstep, ih cfg.length cfg (d.addNext (n + shift)) rfl]
    simp [LayerDescriptor.addNext, List.append_assoc]

/-- The descriptors appended by `Topology.addLoop` for a block suffix whose
first element lands at position `m`: ids are consecutive from `m` and
next-layer indices are shifted by `size`. -/
def shiftBlock (size : Nat) : Nat → List LayerDescriptor → List LayerDescriptor
  | _, [] => []
  | m, d :: rest =>
    ⟨m, d.layer, d.nextLayers.map (fun n => n + size)⟩ :: shiftBlock size (m + 1) rest

lemma shiftBlock_length (size : Nat) :
    ∀ (m : Nat) (bl : List LayerDescriptor), (shiftBlock size m bl).length = bl.length := by
  intro m bl
  induction bl generalizing m with
  | nil => rfl
  | cons d rest ih => simp [shiftBlock, ih]

lemma shiftBlock_getD (size : Nat) :
    ∀ (bl : List LayerDescriptor) (m j : Nat), j < bl.length →
    (shiftBlock size m bl).getD j default =
      ⟨m + j, (bl.getD j default).layer,
        (bl.getD j default).nextLayers.map (fun n => n + size)⟩ := by
  intro bl
  induction bl with
  | nil =>
    intro m j hj
    simp at hj
  | cons d rest ih =>
    intro m j hj
    cases j with
    | zero => simp [shiftBlock]
    | succ j =>
      simp only [shiftBlock, List.getD_cons_succ]
      rw [ih (m + 1) j (by simpa using hj)]
      congr 1
      omega

lemma addLoop_config (size : Nat) (bl : List LayerDescriptor) :
    ∀ (t : Topology) (i id0 : Nat), t.config.length = size + i →
    (Topology.addLoop size t bl i id0).1.config =
      t.config ++ shiftBlock size (size + i) bl := by
  induction bl with
  | nil =>
    intro t i id0 _
    simp [Topology.addLoop, shiftBlock]
  | cons d rest ih =>
    intro t i id0 hlen
    simp only [Topology.addLoop, Topology.push_back]
    rw [foldl_addNextAt_concat d.nextLayers size (i + size) t.config
      ⟨t.config.length, d.layer, []⟩ (by omega)]
    rw [ih ⟨t.config ++ [_]⟩ (i + 1) t.config.length (by simp; omega)]
    simp only [List.append_assoc]
    congr 1
    rw [shiftBlock, hlen]
    rw [show size + i + 1 = size + (i + 1) from rfl]
    simp

lemma addLoop_id (size : Nat) (bl : List LayerDescriptor) :
    ∀ (t : Topology) (i id0 : Nat), t.config.length = size + i → bl ≠ [] →
    (Topology.addLoop size t bl i id0).2 = size + i + bl.length - 1 := by
  induction bl with
  | nil =>
    intro t i id0 _ hne
    exact absurd rfl hne
  | cons d rest ih =>
    intro t i id0 hlen _
    simp only [Topology.addLoop, Topology.push_back]
    cases hr : rest with
    | nil =>
      simp [Topology.addLoop, hlen]
    | cons d2 rest2 =>
      rw [← hr]
      have hfold := foldl_addNextAt_concat d.nextLayers size (i + size) t.config
        ⟨t.config.length, d.layer, []⟩ (by omega)
      rw [hfold]
      rw [ih ⟨t.config ++ [_]⟩ (i + 1) t.config.length (by simp; omega)
        (by simp [hr])]
      simp only [List.length_cons]
      omega

/-- C10: `Topology::add(block, startIndex)` on a non-empty block writes the
size before the call to `startIndex`, appends `block.size()` descriptors so
the size grows by `block.size()` while existing entries are unchanged, gives
the appended descriptor for block position `j` the block's layer and the
block's next-layer indices each shifted by `startIndex` (preserving the
block's internal connectivity), and returns `startIndex + block.size() - 1`. -/
theorem topology_addBlock_spec (t b : Topology) (hb : b.config ≠ []) :
    (t.addBlock b).2.2 = t.size ∧
    (t.addBlock b).1.size = t.size + b.size ∧
    (t.addBlock b).2.1 = t.size + b.size - 1 ∧
    (∀ j, j < t.size →
      (t.addBlock b).1.config.getD j default = t.config.getD j default) ∧
    (∀ j, j < b.size →
      (t.addBlock b).1.config.getD (t.size + j) default =
        ⟨t.size + j, (b.config.getD j default).layer,
          (b.config.getD j default).nextLayers.map (fun n => n + t.size)⟩) := by
  have hlen0 : t.config.length = t.size + 0 := by
    simp [Topology.size]
  have hcfg : (t.addBlock b).1.config =
      t.config ++ shiftBlock t.size (t.size + 0) b.config :=
    addLoop_config t.size b.config t 0 0 hlen0
  rw [Nat.add_zero] at hcfg
  refine ⟨rfl, ?_, ?_, ?_, ?_⟩
  · show (t.addBlock b).1.config.length = t.size + b.size
    rw [hcfg]
    simp [Topology.size, shiftBlock_length]
  · show (Topology.addLoop t.size t b.config 0 0).2 = t.size + b.size - 1
    rw [addLoop_id t.size b.config t 0 0 hlen0 hb]
    simp [Topology.size]
  · intro j hj
    rw [hcfg, getD_append_lt _ _ _ _ hj]
  · intro j hj
    rw [hcfg,
      show t.size + j = t.config.length + j from by simp [Topology.size],
      getD_append_right_add,
      shiftBlock_getD t.size b.config t.size j hj]
    rfl

/-- Witness for `topology_addBlock_spec`: appending the two-layer block
`[(0, 5, [1]), (1, 6, [])]` to the empty topology. -/
theorem topology_addBlock_spec_witness :
    ((⟨[]⟩ : Topology).addBlock ⟨[⟨0, 5, [1]⟩, ⟨1, 6, []⟩]⟩).2.2 =
      (⟨[]⟩ : Topology).size ∧
    ((⟨[]⟩ : Topology).addBlock ⟨[⟨0, 5, [1]⟩, ⟨1, 6, []⟩]⟩).1.size =
      (⟨[]⟩ : Topology).size + (⟨[⟨0, 5, [1]⟩, ⟨1, 6, []⟩]⟩ : Topology).size ∧
    ((⟨[]⟩ : Topology).addBlock ⟨[⟨0, 5, [1]⟩, ⟨1, 6, []⟩]⟩).2.1 =
      (⟨[]⟩ : Topology).size + (⟨[⟨0, 5, [1]⟩, ⟨1, 6, []⟩]⟩ : Topology).size - 1 ∧
    (∀ j, j < (⟨[]⟩ : Topology).size →
      ((⟨[]⟩ : Topology).addBlock ⟨[⟨0, 5, [1]⟩, ⟨1, 6, []⟩]⟩).1.config.getD j default =
        (⟨[]⟩ : Topology).config.getD j default) ∧
    (∀ j, j < (⟨[⟨0, 5, [1]⟩, ⟨1, 6, []⟩]⟩ : Topology).size →
      ((⟨[]⟩ : Topology).addBlock ⟨[⟨0, 5, [1]⟩, ⟨1, 6, []⟩]⟩).1.config.getD
          ((⟨[]⟩ : Topology).size + j) default =
        ⟨(⟨[]⟩ : Topology).size + j,
          ((⟨[⟨0, 5, [1]⟩, ⟨1, 6, []⟩]⟩ : Topology).config.getD j default).layer,
          ((⟨[⟨0, 5, [1]⟩, ⟨1, 6, []⟩]⟩ : Topology).config.getD j default).nextLayers.map
            (fun n => n + (⟨[]⟩ : Topology).size)⟩) :=
  topology_addBlock_spec ⟨[]⟩ ⟨[⟨0, 5, [1]⟩, ⟨1, 6, []⟩]⟩ (by simp)

end DAAL
